import Mathlib

/-!
Verification development for the LevelUpX AutoFill form-completion engine
(browser extension). The definitions below are shallow embeddings of the
JavaScript sources:

* `chrome-extension/content/button-finder.js` — button discovery/clickability,
* `chrome-extension/content/dom-waiters.js`  — settle/quiescence primitives,
* `chrome-extension/content/field-filler.js` — value injectors and matchers,
* the base adapter's `fill` pass (per-call touched-control set), and
* the step orchestrator (`run`, `_classifyNextAction`, abort handling).

Machine strings are modelled as Lean `String`s (the forms handled are ASCII
English); JS truthiness of a string is emptiness; object identity of DOM
controls is modelled by a numeric id. Real time is modelled by explicit
millisecond schedules where the code's behaviour depends on it.
-/

namespace LevelUpX

/-- JS list-of-chars prefix test: `p` is a prefix of `s`. -/
def chPref : List Char → List Char → Bool
  | [], _ => true
  | _ :: _, [] => false
  | a :: as, b :: bs => a == b && chPref as bs

/-- JS substring search over char lists: `hay` has `needle` somewhere inside. -/
def chSub : List Char → List Char → Bool
  | [], needle => needle.isEmpty
  | c :: cs, needle => chPref needle (c :: cs) || chSub cs needle

/-- JS `hay.includes(needle)`. -/
def jsIncludes (hay needle : String) : Bool :=
  chSub hay.toList needle.toList

/-- JS `s.startsWith(p)`. -/
def jsStartsWith (s p : String) : Bool :=
  chPref p.toList s.toList

/-- JS `s.toLowerCase()` (the label/value text handled here is ASCII). -/
def jsLower (s : String) : String := ⟨s.data.map Char.toLower⟩

/-- Whitespace test for `trim`. -/
def wsChar (c : Char) : Bool := c == ' ' || c == '\t' || c == '\n' || c == '\r'

/-- JS `s.trim()`. -/
def jsTrim (s : String) : String :=
  ⟨((s.data.dropWhile wsChar).reverse.dropWhile wsChar).reverse⟩

/-- JS normalisation `x.toLowerCase().trim()` used throughout the sources. -/
def jsNorm (s : String) : String := jsTrim (jsLower s)

-- ── ButtonFinder (button-finder.js) ─────────────────────────────────────

/-- Observable state of one button-like element found by the candidate scan
in `findByText` (document order is the list order). `visible` is the outcome
of `_isVisible` (offset parent or non-zero bounding box). -/
structure Button where
  textContent : String := ""
  value : String := ""
  ariaLabel : String := ""
  title : String := ""
  className : String := ""
  disabled : Bool := false
  ariaDisabled : Bool := false
  visible : Bool := true
deriving Repr, DecidableEq

/-- JS `(el.textContent || el.value || '').trim().toLowerCase()` from
`findByText`. -/
def Button.elText (b : Button) : String :=
  jsLower (jsTrim (if b.textContent ≠ "" then b.textContent else b.value))

/-- ButtonFinder.findByText: selector hints first (first visible hit), then an
exact text/aria-label/title pass over visible candidates, then a partial
(substring) pass over text/aria-label. `hints` is the list of elements the
selector hints resolve to, in hint order. -/
def findByText (hints : List Button) (candidates : List Button)
    (texts : List String) : Option Button :=
  match hints.find? (fun b => b.visible) with
  | some b => some b
  | none =>
    let norm := texts.map (fun t => jsTrim (jsLower t))
    match candidates.find? (fun b => b.visible &&
        norm.any (fun n =>
          b.elText == n || jsLower b.ariaLabel == n || jsLower b.title == n)) with
    | some b => some b
    | none =>
      candidates.find? (fun b => b.visible &&
        norm.any (fun n =>
          jsIncludes b.elText n || jsIncludes (jsLower b.ariaLabel) n))

/-- ButtonFinder.isClickable: enabled, not aria-disabled, visible, and no
loading/disabled/spinner class token. -/
def isClickable (b : Button) : Bool :=
  !b.disabled && !b.ariaDisabled && b.visible &&
    (let cls := jsLower b.className
     !(jsIncludes cls "loading" || jsIncludes cls "disabled" ||
       jsIncludes cls "spinner"))

/-- ButtonFinder.findAndClick: find by text, require clickability, then
`safeClick` (which in the source always succeeds once it has an element:
scroll, focus, mousedown/mouseup/click). Returns the clicked button. -/
def findAndClick (hints candidates : List Button) (texts : List String) :
    Option Button :=
  match findByText hints candidates texts with
  | none => none
  | some b => if isClickable b then some b else none

-- ── Orchestrator text tables (part of the orchestrator source) ──────────

def APPLY_TEXTS : List String :=
  ["Easy Apply", "Apply Now", "Apply", "Apply for this job",
   "Start Application", "I\x27m Interested", "Apply for this position",
   "Apply to this job", "Quick Apply"]

def NEXT_TEXTS : List String :=
  ["Next", "Continue", "Save and continue", "Save & Continue",
   "Proceed", "Next Step", "Review", "Save and next",
   "Continue to next step", "Go to next step"]

def SUBMIT_TEXTS : List String :=
  ["Submit application", "Submit", "Send Application",
   "Complete Application", "Confirm & Submit", "Confirm and Submit",
   "Submit my application", "Apply"]

/-- Orchestrator `_mergeTexts`: platform texts first, then generic texts not
already present case-insensitively. -/
def mergeTexts (platformTexts genericTexts : List String) : List String :=
  if platformTexts.isEmpty then genericTexts
  else
    genericTexts.foldl
      (fun merged t =>
        if merged.any (fun m => jsLower m == jsLower t) then merged
        else merged ++ [t])
      platformTexts

/-- Classification outcome of `_classifyNextAction`. -/
inductive NextAction | submit | next | done
deriving Repr, DecidableEq

/-- Finality test inside `_classifyNextAction`: the candidate submit button's
text or aria-label must contain "submit", "send application",
"complete application" or "confirm". -/
def impliesFinality (b : Button) : Bool :=
  let btnText := jsLower (jsTrim b.textContent)
  let aria := jsLower b.ariaLabel
  jsIncludes btnText "submit" || jsIncludes aria "submit" ||
  jsIncludes btnText "send application" ||
  jsIncludes btnText "complete application" ||
  jsIncludes btnText "confirm"

/-- Orchestrator `_classifyNextAction` with a generic (absent) stepConfig, as
used for adapters without `stepConfig` (e.g. the Lever adapter): submit
candidates checked first with the finality-text guard, then next/continue,
then a fallback that returns `submit` for any clickable submit candidate. -/
def classifyNextAction (container : List Button) : NextAction :=
  let submitBtn := findByText [] container SUBMIT_TEXTS
  let submitClickable := submitBtn.any isClickable
  let submitFinal := submitBtn.any (fun sb => isClickable sb && impliesFinality sb)
  if submitFinal then .submit
  else
    let nextBtn := findByText [] container NEXT_TEXTS
    if nextBtn.any isClickable then .next
    else if submitClickable then .submit
    else .done

-- ── Waiters (dom-waiters.js) ────────────────────────────────────────────

/-- Fire time of the quiet timer in `waitForDomSettle`: the timer is armed at
time 0 and re-armed by every mutation that lands before it fires.
`muts` is the (sorted) list of mutation instants. -/
def quietFireTime (quiet : Nat) : List Nat → Nat → Nat
  | [], last => last + quiet
  | t :: ts, last =>
    if t < last + quiet then quietFireTime quiet ts t else last + quiet

inductive SettleOutcome | settled | cappedOut
deriving Repr, DecidableEq

/-- Waiters.waitForDomSettle: resolves at the quiet-timer fire time if that is
within the hard cap, and otherwise resolves at the hard cap (the source's
maxTimer calls `resolve()` — best effort). It never rejects. -/
def waitForDomSettle (quiet timeoutMs : Nat) (muts : List Nat) :
    Nat × SettleOutcome :=
  let f := quietFireTime quiet muts 0
  if f ≤ timeoutMs then (f, .settled) else (timeoutMs, .cappedOut)

/-- Promise-level view of `waitForDomSettle`: the promise always fulfills
(there is no `reject` call in the source), so the result is always `Except.ok`. -/
def waitForDomSettleP (quiet timeoutMs : Nat) (muts : List Nat) :
    Except String (Nat × SettleOutcome) :=
  .ok (waitForDomSettle quiet timeoutMs muts)

def MAX_STEPS : Nat := 15
def STEP_TIMEOUT_MS : Nat := 12000
def POST_FILL_DELAY_MS : Nat := 500
def POST_CLICK_SETTLE_MS : Nat := 600

/-- Orchestrator `_waitForStepTransition`: awaits `waitForDomSettle` inside
try/catch and maps a rejection to `false`. -/
def waitForStepTransition (muts : List Nat) : Bool :=
  match waitForDomSettleP POST_CLICK_SETTLE_MS STEP_TIMEOUT_MS muts with
  | .ok _ => true
  | .error _ => false

-- ── Field filler (field-filler.js) ──────────────────────────────────────

/-- Signals the injectors emit on the page. -/
inductive Ev | focus | click | input | change | blur
deriving Repr, DecidableEq

/-- Observable state of a text input / textarea. -/
structure TextEl where
  value : String := ""
deriving Repr, DecidableEq

/-- Filler.setText. `react` is the hosting page's reaction to the emitted
input/change/blur signals: given the old value and the value written through
the native setter, it yields the value the control holds afterwards (a
controlled component may rewrite it, e.g. revert to the old value).
Returns the final element, the emitted signals and the boolean result. -/
def setText (react : String → String → String) (el : TextEl) (v : String) :
    TextEl × List Ev × Bool :=
  if v == "" then (el, [], false)
  else if el.value == v then (el, [], true)
  else
    let after : TextEl := ⟨react el.value v⟩
    (after, [.focus, .click, .input, .change, .blur], after.value == v)

/-- One `option` of a native select. -/
structure SelOpt where
  value : String
  textContent : String
deriving Repr, DecidableEq

/-- Observable state of a native `select`. -/
structure SelectEl where
  options : List SelOpt
  value : String := ""
deriving Repr, DecidableEq

/-- Pass 1 of `setSelect`: exact match on lowercased option value or
lowercased+trimmed option text. -/
def selExactPass (opts : List SelOpt) (vl : String) : Option SelOpt :=
  opts.find? (fun o => jsLower o.value == vl || jsNorm o.textContent == vl)

/-- Pass 2 of `setSelect`: option text contains the value. -/
def selContainsPass (opts : List SelOpt) (vl : String) : Option SelOpt :=
  opts.find? (fun o => jsIncludes (jsLower o.textContent) vl)

/-- Pass 3 of `setSelect`: value contains the (nonempty, length > 1) option
text. -/
def selRevContainsPass (opts : List SelOpt) (vl : String) : Option SelOpt :=
  opts.find? (fun o =>
    let ot := jsNorm o.textContent
    ot ≠ "" && ot.length > 1 && jsIncludes vl ot)

/-- Run three matching passes in order, first hit wins. -/
def passSeq {α : Type} (p1 p2 p3 : Option α) : Option α :=
  match p1 with
  | some x => some x
  | none =>
    match p2 with
    | some x => some x
    | none => p3

/-- Matching logic of `setSelect` (field-filler.js lines 61-91): exact value
or text, then option-text-contains-value, then value-contains-option-text.
There is no boolean yes/no pass. -/
def selectMatch (opts : List SelOpt) (value : String) : Option SelOpt :=
  let vl := jsNorm value
  match selExactPass opts vl with
  | some o => some o
  | none =>
    match selContainsPass opts vl with
    | some o => some o
    | none => selRevContainsPass opts vl

/-- Filler.setSelect: guard on empty value, match, then assign the matched
option's value and dispatch `change` — the assignment and dispatch are
unconditional on a match (there is no skip-if-already-equal check). -/
def setSelect (el : SelectEl) (v : String) : SelectEl × List Ev × Bool :=
  if v == "" then (el, [], false)
  else
    match selectMatch el.options v with
    | some o => ({ el with value := o.value }, [.change], true)
    | none => (el, [], false)

/-- Observable state of a checkbox. -/
structure CheckEl where
  checked : Bool := false
deriving Repr, DecidableEq

/-- Filler.setCheckbox: simulate a click only when the checked state differs
from the target; the native click toggles the box. -/
def setCheckbox (el : CheckEl) (target : Bool) : CheckEl × List Ev × Bool :=
  if el.checked != target then
    let el2 : CheckEl := ⟨!el.checked⟩
    (el2, [.click], el2.checked == target)
  else (el, [], el.checked == target)

/-- JS yes-words used by the boolean-normalisation passes. -/
def YES_WORDS : List String := ["yes", "true", "1", "y"]

/-- JS no-words used by the boolean-normalisation passes. -/
def NO_WORDS : List String := ["no", "false", "0", "n"]

/-- Exact pass over option texts (already normalised). -/
def exactPassTexts (ts : List String) (vl : String) : Option String :=
  ts.find? (fun t => t == vl)

/-- Bidirectional-substring pass over option texts. -/
def bidirPassTexts (ts : List String) (vl : String) : Option String :=
  ts.find? (fun t => jsIncludes t vl || jsIncludes vl t)

/-- Boolean yes/no normalisation pass over option texts: a yes-word (no-word)
value matches an option whose text starts with "yes" ("no"). -/
def boolPassTexts (ts : List String) (vl : String) : Option String :=
  let isYes := YES_WORDS.contains vl
  let isNo := NO_WORDS.contains vl
  if isYes || isNo then
    ts.find? (fun t => jsStartsWith t (if isYes then "yes" else "no"))
  else none

/-- Matching logic of `setReactSelect` (field-filler.js lines 186-214) over
the texts of the option nodes that appeared: exact, then bidirectional
substring, then — last — the yes/no normalisation pass. -/
def reactSelectMatch (optionTexts : List String) (value : String) :
    Option String :=
  let vl := jsNorm value
  let ts := optionTexts.map jsNorm
  match exactPassTexts ts vl with
  | some t => some t
  | none =>
    match bidirPassTexts ts vl with
    | some t => some t
    | none => boolPassTexts ts vl

/-- Polling loop of `setReactSelect` step 3: up to 40 attempts, each prefixed
by a 50 ms sleep; `present t` says whether option nodes exist in the tree at
time `t` (ms after the loop starts). Returns the elapsed time when the loop
exits. -/
def reactSelectPollTime (present : Nat → Bool) : Nat :=
  go present 40 0
where
  go (present : Nat → Bool) : Nat → Nat → Nat
    | 0, elapsed => elapsed
    | n + 1, elapsed =>
      let e2 := elapsed + 50
      if present e2 then e2 else go present n e2

/-- Boolean pass of `setRadioGroup` over (radio id, normalised label) pairs:
label starts with the target word, or equals it. -/
def radioBoolPass (rl : List (Nat × String)) (vl : String) : Option Nat :=
  let isYes := YES_WORDS.contains vl
  let isNo := NO_WORDS.contains vl
  if isYes || isNo then
    let target := if isYes then "yes" else "no"
    (rl.find? (fun p => jsStartsWith p.2 target || p.2 == target)).map (·.1)
  else none

/-- Matching logic of `setRadioGroup` (field-filler.js lines 298-326) over
the per-member labels built by the label fallback chain: exact, then yes/no
normalisation, then bidirectional substring (skipping empty labels).
`rl` pairs each radio member's identity with its raw label text. -/
def radioGroupMatch (rl : List (Nat × String)) (value : String) : Option Nat :=
  let vl := jsNorm value
  let norm := rl.map (fun p => (p.1, jsNorm p.2))
  match (norm.find? (fun p => p.2 == vl)).map (·.1) with
  | some r => some r
  | none =>
    match radioBoolPass norm vl with
    | some r => some r
    | none =>
      (norm.find? (fun p =>
        p.2 ≠ "" && (jsIncludes p.2 vl || jsIncludes vl p.2))).map (·.1)

/-- Matcher that follows the specification's words (spec section 4.1/4.2:
"three passes in strict order — exact case-insensitive equality, then boolean
normalization ..., then bidirectional substring containment; first pass with
any hit wins"), stated over the option/member labels. Used only to compare
the source matchers against the specified pass order. -/
def specOrderMatchKeyed (rl : List (Nat × String)) (value : String) :
    Option Nat :=
  let vl := jsNorm value
  let norm := rl.map (fun p => (p.1, jsNorm p.2))
  passSeq
    ((norm.find? (fun p => p.2 == vl)).map (·.1))
    (radioBoolPass norm vl)
    ((norm.find? (fun p => jsIncludes p.2 vl || jsIncludes vl p.2)).map (·.1))

/-- Specification-order matcher over plain option texts, for comparison with
`selectMatch` and `reactSelectMatch`. -/
def specOrderMatchTexts (labels : List String) (value : String) :
    Option String :=
  let vl := jsNorm value
  let ts := labels.map jsNorm
  passSeq
    (exactPassTexts ts vl)
    (boolPassTexts ts vl)
    (bidirPassTexts ts vl)

-- ── Base adapter fill pass (base-adapter.js) ────────────────────────────

/-- Identity of one interactive control in the live tree (JS object identity
of the element; the `filledElements` JS `Set` stores these identities). -/
structure Ctrl where
  cid : Nat
deriving Repr, DecidableEq

/-- One explicit fieldMap entry after strategy resolution: the profile value
and the control `Detector.findField` resolved it to (none = not found). -/
structure FillEntry where
  value : String
  ctrl : Option Ctrl
deriving Repr, DecidableEq

/-- One label handled by `_scanAndFillByLabels` (label, pseudo-label or
attribute pass): the control its resolution found, whether the step-2
"already has a value" check fires, and the value of the first matching
pattern-table pair for its text (none = no pattern matched). -/
structure ScanItem where
  ctrl : Option Ctrl
  alreadyValued : Bool := false
  matchedValue : Option String := none
deriving Repr, DecidableEq

/-- One injection performed by the fill pass (a call into `Filler.fill`),
with the control identity, value and whether the injection succeeded. -/
structure InjectEv where
  ctrl : Ctrl
  value : String
  success : Bool
deriving Repr, DecidableEq

/-- Pass 1 of the base adapter's `fill`: iterate the explicit fieldMap
entries, skip empty values and unresolved controls, inject, and record the
control in the touched set only on success. Note the pass never consults the
set before injecting. Returns (injections, final set, filled count). -/
def fillPass1 (inject : Ctrl → String → Bool) :
    List FillEntry → List Ctrl → List InjectEv × List Ctrl × Nat
  | [], set => ([], set, 0)
  | e :: rest, set =>
    if e.value == "" then fillPass1 inject rest set
    else
      match e.ctrl with
      | none => fillPass1 inject rest set
      | some c =>
        let ok := inject c e.value
        let r := fillPass1 inject rest (if ok then set ++ [c] else set)
        (⟨c, e.value, ok⟩ :: r.1, r.2.1, if ok then r.2.2 + 1 else r.2.2)

/-- Label/pseudo-label/attribute scan of `_scanAndFillByLabels`, routed
through `tryFillForLabel`: skip when no control resolves, when the control is
already in the touched set, or when it already has a value; otherwise on a
pattern hit inject and, on success, add the control to the set. -/
def scanPass (inject : Ctrl → String → Bool) :
    List ScanItem → List Ctrl → List InjectEv × List Ctrl × Nat
  | [], set => ([], set, 0)
  | item :: rest, set =>
    match item.ctrl with
    | none => scanPass inject rest set
    | some c =>
      if c ∈ set then scanPass inject rest set
      else if item.alreadyValued then scanPass inject rest set
      else
        match item.matchedValue with
        | none => scanPass inject rest set
        | some v =>
          let ok := inject c v
          let r := scanPass inject rest (if ok then set ++ [c] else set)
          (⟨c, v, ok⟩ :: r.1, r.2.1, if ok then r.2.2 + 1 else r.2.2)

/-- Base adapter `fill` for one call (= one orchestrator step): the touched
set (`filledElements`) is created empty inside the call, pass 1 runs over the
fieldMap, then the label scan runs with the set pass 1 produced. Returns the
injections performed and the filled count. -/
def adapterFill (inject : Ctrl → String → Bool) (entries : List FillEntry)
    (items : List ScanItem) : List InjectEv × Nat :=
  let r1 := fillPass1 inject entries []
  let r2 := scanPass inject items r1.2.1
  (r1.1 ++ r2.1, r1.2.2 + r2.2.2)

-- ── Step orchestrator (part_004 `run`) ──────────────────────────────────

/-- Environment of one loop iteration: the button candidates the form
container holds when the step classifies/clicks, whether the resume upload of
the step succeeds, the mutation schedule after the next-click, whether
visible validation-error markers exist, and whether the abort flag is set by
the time the post-fill delay finishes (the line-128 check). -/
structure StepEnv where
  buttons : List Button := []
  resumeUploaded : Bool := false
  mutationTimes : List Nat := []
  errorsVisible : Bool := false
  abortDuringDelay : Bool := false

instance : Inhabited StepEnv := ⟨{}⟩

/-- Environment of a whole run: body buttons for the phase-1 apply search,
the abort flag as observed at the loop guard before each step, and the
per-step environments. Abort flags are set by the user between tasks, so
they are sampled at the two points the source reads `this._aborted`. -/
structure RunEnv where
  applyButtons : List Button := []
  abortBefore : Nat → Bool := fun _ => false
  steps : Nat → StepEnv := fun _ => default

inductive ClickOrigin | applyPhase | nextNav
deriving Repr, DecidableEq

/-- One button activation performed by the engine (`safeClick`). -/
structure Click where
  step : Nat
  origin : ClickOrigin
  button : Button
deriving Repr, DecidableEq

inductive LogAction
  | applyClicked | noApplyButton | stepFilled | awaitingSubmitLog
  | noNextButton | clickFailedLog
deriving Repr, DecidableEq

inductive StatusKind
  | seekingApply | openingForm | fillingStep | stepReport | readySubmit
  | allDone | cantAdvance | fixValidation | transitionTimedOut
deriving Repr, DecidableEq

/-- One `onStatus` emission with the stepInfo flags the source passes. -/
structure StatusEv where
  kind : StatusKind
  step : Nat
  isError : Bool := false
  awaitingSubmitFlag : Bool := false
  validationErrorsFlag : Bool := false
  reportedFilled : Nat := 0
deriving Repr, DecidableEq

/-- How the run left the step loop. -/
inductive Outcome
  | maxSteps | abortedAtGuard | abortedMidStep | awaitingSubmit | doneNoNav
  | clickFailed | validationBlocked | transitionTimeout
deriving Repr, DecidableEq

/-- Fields of the object `run` returns
(`success / stepsCompleted / totalFilled / log`; there are no `aborted` or
`awaitingSubmit` members on it). -/
structure RunResult where
  success : Bool
  stepsCompleted : Nat
  totalFilled : Nat
  log : List (Nat × LogAction)
deriving Repr, DecidableEq

/-- Result plus the observable traces of a run: every `safeClick`, every
`onStatus` emission, and every `_classifyNextAction` invocation with its
verdict. -/
structure RunOut where
  result : RunResult
  outcome : Outcome
  clicks : List Click
  statuses : List StatusEv
  classifies : List (Nat × NextAction)
deriving Repr, DecidableEq

/-- Step loop of `run` (part_004 lines 97-175), with a generic (absent)
stepConfig. `fuel` is `MAX_STEPS - currentStep`, so the while guard
`currentStep < MAX_STEPS` is the `fuel = 0` pattern. Faithful notes:
`adapter.fill` is invoked but not awaited (source line 107), so the loop
reads `filledCount` off a pending Promise and gets 0; a successful resume
upload adds 1 to the total; `_waitForStepTransition` wraps a settle promise
that never rejects. -/
def stepLoop (env : RunEnv) :
    Nat → Nat → Nat → List (Nat × LogAction) → List Click → List StatusEv →
    List (Nat × NextAction) → RunOut
  | 0, cur, tot, log, clicks, sts, cls =>
    -- while guard: currentStep < MAX_STEPS is false; success reads the
    -- abort flag at that same moment
    ⟨⟨!(env.abortBefore (cur + 1)), cur, tot, log⟩, .maxSteps, clicks, sts, cls⟩
  | fuel + 1, cur, tot, log, clicks, sts, cls =>
    if env.abortBefore (cur + 1) then
      ⟨⟨false, cur, tot, log⟩, .abortedAtGuard, clicks, sts, cls⟩
    else
      let k := cur + 1
      let e := env.steps k
      let sts := sts ++ [⟨.fillingStep, k, false, false, false, 0⟩]
      -- 2b: adapter.fill(container, profile) is called without await; the
      -- Promise has no filledCount field, so stepFilled reads as 0
      let stepFilled : Nat := 0
      let tot := tot + stepFilled
      -- 2c: resume upload (awaited; errors are caught and only logged)
      let tot := tot + (if e.resumeUploaded then 1 else 0)
      let sts := sts ++ [⟨.stepReport, k, false, false, false, stepFilled⟩]
      let log := log ++ [(k, .stepFilled)]
      -- 2d: await delay(POST_FILL_DELAY_MS) then the mid-step abort check
      if e.abortDuringDelay then
        ⟨⟨false, k, tot, log⟩, .abortedMidStep, clicks, sts, cls⟩
      else
        -- 2e: classify the next action
        let action := classifyNextAction e.buttons
        let cls := cls ++ [(k, action)]
        match action with
        | .submit =>
          let sts := sts ++ [⟨.readySubmit, k, false, true, false, tot⟩]
          let log := log ++ [(k, .awaitingSubmitLog)]
          ⟨⟨true, k, tot, log⟩, .awaitingSubmit, clicks, sts, cls⟩
        | .done =>
          let log := log ++ [(k, .noNextButton)]
          let sts := sts ++ [⟨.allDone, k, false, false, false, tot⟩]
          ⟨⟨true, k, tot, log⟩, .doneNoNav, clicks, sts, cls⟩
        | .next =>
          match findAndClick [] e.buttons NEXT_TEXTS with
          | none =>
            let log := log ++ [(k, .clickFailedLog)]
            let sts := sts ++ [⟨.cantAdvance, k, true, false, false, 0⟩]
            ⟨⟨true, k, tot, log⟩, .clickFailed, clicks, sts, cls⟩
          | some b =>
            let clicks := clicks ++ [⟨k, .nextNav, b⟩]
            -- 2f: wait for the step transition
            if waitForStepTransition e.mutationTimes then
              stepLoop env fuel k tot log clicks sts cls
            else if e.errorsVisible then
              ⟨⟨true, k, tot, log⟩, .validationBlocked, clicks,
                sts ++ [⟨.fixValidation, k, true, false, true, 0⟩], cls⟩
            else
              ⟨⟨true, k, tot, log⟩, .transitionTimeout, clicks,
                sts ++ [⟨.transitionTimedOut, k, true, false, false, 0⟩], cls⟩

/-- Orchestrator `run` with a generic (absent) stepConfig, as for adapters
without `stepConfig`: phase 1 looks for an apply button on the body and
clicks it when found (the settle wait that follows always resolves), then
the step loop runs with `MAX_STEPS` of fuel. -/
def run (env : RunEnv) : RunOut :=
  let sts0 : List StatusEv := [⟨.seekingApply, 0, false, false, false, 0⟩]
  match findAndClick [] env.applyButtons APPLY_TEXTS with
  | some b =>
    stepLoop env MAX_STEPS 0 0 [(0, .applyClicked)] [⟨0, .applyPhase, b⟩]
      (sts0 ++ [⟨.openingForm, 0, false, false, false, 0⟩]) []
  | none =>
    stepLoop env MAX_STEPS 0 0 [(0, .noApplyButton)] [] sts0 []

-- ── Concrete fixtures ───────────────────────────────────────────────────

/-- Visible, enabled button whose text is exactly "Submit application". -/
def submitOnlyBtn : Button := { textContent := "Submit application" }

/-- Visible, enabled button whose text is exactly "Apply" — a submit-text
candidate (last entry of SUBMIT_TEXTS) without any finality wording. -/
def applyOnlyBtn : Button := { textContent := "Apply" }

/-- Visible, enabled button whose text is exactly "Next". -/
def nextOnlyBtn : Button := { textContent := "Next" }

/-- Mutation schedule that never goes quiet for 600 ms before the 12 s hard
cap: one structural mutation every 500 ms up to t = 12000. -/
def denseMuts : List Nat := (List.range 24).map (fun i => 500 * (i + 1))

/-- Run environment whose first (and only) step shows just a
"Submit application" control. -/
def envSubmit : RunEnv :=
  { steps := fun k => if k = 1 then { buttons := [submitOnlyBtn] } else default }

/-- Run environment in which the user aborts while the post-fill settle
delay of step 1 is pending. -/
def envAbortMid : RunEnv :=
  { steps := fun k => if k = 1 then { abortDuringDelay := true } else default }

/-- Run environment for a non-settling transition: step 1 has a clickable
Next button, the tree keeps mutating past the hard cap after the click, and a
visible validation-error marker is present; step 2 has no buttons. -/
def envNoSettle : RunEnv :=
  { steps := fun k =>
      if k = 1 then
        { buttons := [nextOnlyBtn], mutationTimes := denseMuts,
          errorsVisible := true }
      else default }

/-- Option availability oracle for a custom dropdown whose option nodes only
appear 2000 ms after the dropdown is opened. -/
def present2000 : Nat → Bool := fun t => decide (2000 ≤ t)

/-- Native select that already holds the value of its only option. -/
def selApple : SelectEl := { options := [⟨"a", "Apple"⟩], value := "a" }

/-- Two explicit fieldMap entries whose strategies resolve to the same
control (identity 1). -/
def doubleEntries : List FillEntry :=
  [⟨"a@b.com", some ⟨1⟩⟩, ⟨"Jane Doe", some ⟨1⟩⟩]

/-- Number of successful resume uploads over the first `k` steps of an
environment (the only contribution to `totalFilled` that survives the
un-awaited `adapter.fill` call). -/
def uploadsUpTo (env : RunEnv) : Nat → Nat
  | 0 => 0
  | k + 1 => uploadsUpTo env k + (if (env.steps (k + 1)).resumeUploaded then 1 else 0)

/-- Number of loop iterations a run trace shows (one `fillingStep` status per
iteration of the step loop). -/
def fillingCount (sts : List StatusEv) : Nat :=
  (sts.filter (fun s => s.kind == .fillingStep)).length

-- ── Shared lemmas ───────────────────────────────────────────────────────

/-- The settle promise never rejects, so `_waitForStepTransition` always
reports success, for every mutation schedule. -/
theorem waitForStepTransition_eq_true (muts : List Nat) :
    waitForStepTransition muts = true := rfl

/-- Pointwise-equal predicates find the same first element. -/
theorem find?_ext {α : Type} (l : List α) (p q : α → Bool)
    (h : ∀ a ∈ l, p a = q a) : l.find? p = l.find? q := by
  induction l with
  | nil => rfl
  | cons a t ih =>
    have ha := h a (List.mem_cons_self a t)
    simp only [List.find?, ha]
    cases hq : q a
    · exact ih fun x hx => h x (List.mem_cons_of_mem _ hx)
    · rfl

-- ── C5 ──────────────────────────────────────────────────────────────────

/-- C5 counterexample: the choice matchers do not run exact → boolean →
substring. The native-select matcher has no boolean pass at all — value
"true" finds nothing among options labelled "Yes, I am authorized" although
the claimed procedure selects that option — and the custom-dropdown matcher
runs the substring pass before the boolean pass — value "1" picks the option
"1 year" although the claimed procedure picks "Yes, definitely". -/
theorem C5_pass_order_counterexample :
    selectMatch [⟨"opt1", "Yes, I am authorized"⟩] "true" = none ∧
    specOrderMatchTexts ["Yes, I am authorized"] "true" =
      some "yes, i am authorized" ∧
    reactSelectMatch ["Yes, definitely", "1 year"] "1" = some "1 year" ∧
    specOrderMatchTexts ["Yes, definitely", "1 year"] "1" =
      some "yes, definitely" := by decide

/-- C5 (corrected): only the radio-group matcher follows the claimed strict
order exact → boolean normalisation → bidirectional substring (coinciding
with the spec-order matcher whenever the member labels are nonempty after
normalisation); the custom-dropdown matcher runs exact → bidirectional
substring → boolean (boolean last); the native-select matcher runs exact
(value or text) → option-contains-value → value-contains-option and has no
boolean pass. First hit of a pass wins in each case. -/
theorem C5_amended_pass_structure :
    (∀ (rl : List (Nat × String)) (v : String),
        (∀ p ∈ rl, jsNorm p.2 ≠ "") →
        radioGroupMatch rl v = specOrderMatchKeyed rl v) ∧
    (∀ (ts : List String) (v : String),
        reactSelectMatch ts v =
          passSeq (exactPassTexts (ts.map jsNorm) (jsNorm v))
            (bidirPassTexts (ts.map jsNorm) (jsNorm v))
            (boolPassTexts (ts.map jsNorm) (jsNorm v))) ∧
    (∀ (opts : List SelOpt) (v : String),
        selectMatch opts v =
          passSeq (selExactPass opts (jsNorm v))
            (selContainsPass opts (jsNorm v))
            (selRevContainsPass opts (jsNorm v))) := by
  refine ⟨?_, ?_, ?_⟩
  · intro rl v h
    have h3 : (rl.map (fun p => (p.1, jsNorm p.2))).find?
          (fun p => p.2 ≠ "" &&
            (jsIncludes p.2 (jsNorm v) || jsIncludes (jsNorm v) p.2)) =
        (rl.map (fun p => (p.1, jsNorm p.2))).find?
          (fun p => jsIncludes p.2 (jsNorm v) || jsIncludes (jsNorm v) p.2) := by
      apply find?_ext
      intro a ha
      rcases List.mem_map.mp ha with ⟨b, hb, rfl⟩
      simp [h b hb]
    simp only [radioGroupMatch, specOrderMatchKeyed, passSeq, h3]
    cases h1 : ((rl.map (fun p => (p.1, jsNorm p.2))).find?
        (fun p => p.2 == jsNorm v)).map (fun x => x.1) with
    | some r => simp [h1]
    | none =>
      simp only [h1]
      cases h2 : radioBoolPass (rl.map (fun p => (p.1, jsNorm p.2))) (jsNorm v) with
      | some r => simp [h2]
      | none => simp [h2]
  · intro ts v
    simp only [reactSelectMatch, passSeq]
    cases h1 : exactPassTexts (ts.map jsNorm) (jsNorm v) with
    | some t => simp [h1]
    | none =>
      simp only [h1]
      cases h2 : bidirPassTexts (ts.map jsNorm) (jsNorm v) with
      | some t => simp [h2]
      | none => simp [h2]
  · intro opts v
    simp only [selectMatch, passSeq]
    cases h1 : selExactPass opts (jsNorm v) with
    | some o => simp [h1]
    | none =>
      simp only [h1]
      cases h2 : selContainsPass opts (jsNorm v) with
      | some o => simp [h2]
      | none => simp [h2]

/-- Witness for C5: the radio matcher agrees with the spec-order matcher on a
concrete yes/no group and picks the "Yes" member for value "true". -/
theorem C5_amended_pass_structure_witness :
    radioGroupMatch [(1, "Yes"), (2, "No")] "true" =
      specOrderMatchKeyed [(1, "Yes"), (2, "No")] "true" ∧
    radioGroupMatch [(1, "Yes"), (2, "No")] "true" = some 1 :=
  ⟨C5_amended_pass_structure.1 [(1, "Yes"), (2, "No")] "true" (by decide),
   by decide⟩

-- ── C6 ──────────────────────────────────────────────────────────────────

/-- C6 counterexample: the touched-control set does not prevent double
filling. Two explicit fieldMap entries whose strategies resolve to the same
control (identity 1) are both injected in one fill pass of one run — the
explicit-entry pass never consults the set — so control 1 is filled twice in
the same run. -/
theorem C6_double_fill_counterexample :
    (adapterFill (fun _ _ => true) doubleEntries []).1 =
      [⟨⟨1⟩, "a@b.com", true⟩, ⟨⟨1⟩, "Jane Doe", true⟩] ∧
    ((adapterFill (fun _ _ => true) doubleEntries []).1.filter
        (fun e => e.ctrl == ⟨1⟩ && e.success)).length = 2 := by decide

/-- C6 (corrected): the touched set exists per fill call (per step), not per
run, and only the label/attribute scan consults it: every scan injection
targets a control outside the set the scan started with, and no control is
successfully injected twice by the scan; explicit fieldMap entries bypass
the check (see the counterexample) and the set is recreated on every call. -/
theorem C6_amended_scan_set :
    ∀ (inject : Ctrl → String → Bool) (items : List ScanItem)
      (set0 : List Ctrl),
      (∀ e ∈ (scanPass inject items set0).1, e.ctrl ∉ set0) ∧
      (scanPass inject items set0).1.Pairwise
        (fun e1 e2 => e1.success = true → e1.ctrl ≠ e2.ctrl) := by
  intro inject items
  induction items with
  | nil => intro set0; simp [scanPass]
  | cons item rest ih =>
    intro set0
    cases hc : item.ctrl with
    | none => simpa [scanPass, hc] using ih set0
    | some c =>
      by_cases hin : c ∈ set0
      · simpa [scanPass, hc, hin] using ih set0
      · by_cases hav : item.alreadyValued
        · simpa [scanPass, hc, hin, hav] using ih set0
        · cases hm : item.matchedValue with
          | none => simpa [scanPass, hc, hin, hav, hm] using ih set0
          | some v =>
            by_cases hok : inject c v
            · have hstep : scanPass inject (item :: rest) set0 =
                  (⟨c, v, true⟩ :: (scanPass inject rest (set0 ++ [c])).1,
                   (scanPass inject rest (set0 ++ [c])).2.1,
                   (scanPass inject rest (set0 ++ [c])).2.2 + 1) := by
                simp [scanPass, hc, hin, hav, hm, hok]
              have ihs := ih (set0 ++ [c])
              have hsub : ∀ e ∈ (scanPass inject rest (set0 ++ [c])).1,
                  e.ctrl ∉ set0 ∧ e.ctrl ≠ c := by
                intro e he
                have h1 := ihs.1 e he
                simp only [List.mem_append, List.mem_singleton, not_or] at h1
                exact h1
              rw [hstep]
              constructor
              · intro e he
                rcases List.mem_cons.mp he with rfl | he2
                · exact hin
                · exact (hsub e he2).1
              · refine List.Pairwise.cons ?_ ihs.2
                intro e he _
                exact fun hEq => (hsub e he).2 hEq.symm
            · have hstep : scanPass inject (item :: rest) set0 =
                  (⟨c, v, false⟩ :: (scanPass inject rest set0).1,
                   (scanPass inject rest set0).2.1,
                   (scanPass inject rest set0).2.2) := by
                simp [scanPass, hc, hin, hav, hm, hok]
              have ihs := ih set0
              rw [hstep]
              constructor
              · intro e he
                rcases List.mem_cons.mp he with rfl | he2
                · exact hin
                · exact ihs.1 e he2
              · refine List.Pairwise.cons ?_ ihs.2
                intro e he hsuc
                exact absurd hsuc (by simp)

/-- Witness for C6: on a concrete scan where two labels resolve to the same
control and injection succeeds, the scan injects it only once. -/
theorem C6_amended_scan_set_witness :
    (scanPass (fun _ _ => true)
        [⟨some ⟨2⟩, false, some "x"⟩, ⟨some ⟨2⟩, false, some "y"⟩]
        []).1.Pairwise (fun e1 e2 => e1.success = true → e1.ctrl ≠ e2.ctrl) :=
  (C6_amended_scan_set (fun _ _ => true)
    [⟨some ⟨2⟩, false, some "x"⟩, ⟨some ⟨2⟩, false, some "y"⟩] []).2

-- ── C7 ──────────────────────────────────────────────────────────────────

/-- C7 counterexample: skip-if-equal does not hold for every control type.
A native select already holding the value of the option that "apple" matches
is re-injected anyway — the assignment is performed and a change signal is
dispatched (nonempty event list), instead of the injection being skipped. -/
theorem C7_select_not_skipped_counterexample :
    selApple.value = "a" ∧
    selectMatch selApple.options "apple" = some ⟨"a", "Apple"⟩ ∧
    setSelect selApple "apple" = (selApple, [Ev.change], true) ∧
    (setSelect selApple "apple").2.1 ≠ [] := by decide

/-- C7 (corrected): skip-if-equal holds for the text and checkbox injectors
(already-equal state means no events and an unchanged element), while the
native-select injector re-performs the assignment and change dispatch; its
re-injection is nonetheless idempotent on state — running `setSelect` again
on a successful result reproduces that result exactly. -/
theorem C7_amended_skip_if_equal :
    (∀ (react : String → String → String) (el : TextEl) (v : String),
        v ≠ "" → el.value = v → setText react el v = (el, [], true)) ∧
    (∀ (el : CheckEl) (c : Bool),
        el.checked = c → setCheckbox el c = (el, [], true)) ∧
    (∀ (el : SelectEl) (v : String) (out : SelectEl × List Ev × Bool),
        setSelect el v = out → out.2.2 = true → setSelect out.1 v = out) := by
  refine ⟨?_, ?_, ?_⟩
  · intro react el v hv he
    simp [setText, hv, he]
  · intro el c h
    simp [setCheckbox, h]
  · intro el v out hset htrue
    subst hset
    by_cases hv : v = ""
    · simp [setSelect, hv] at htrue
    · cases hm : selectMatch el.options v with
      | none => simp [setSelect, hv, hm] at htrue
      | some o =>
        have hfst : (setSelect el v).1 = { el with value := o.value } := by
          simp [setSelect, hv, hm]
        rw [hfst]
        have hm2 : selectMatch ({ el with value := o.value }).options v =
            some o := hm
        simp [setSelect, hv, hm, hm2]

/-- Witness for C7: skip-if-equal on concrete text and checkbox controls,
and state idempotence of a concrete successful select injection. -/
theorem C7_amended_skip_if_equal_witness :
    setText (fun old _ => old) ⟨"x"⟩ "x" = (⟨"x"⟩, [], true) ∧
    setCheckbox ⟨true⟩ true = (⟨true⟩, [], true) ∧
    setSelect (setSelect selApple "apple").1 "apple" =
      setSelect selApple "apple" :=
  ⟨C7_amended_skip_if_equal.1 (fun old _ => old) ⟨"x"⟩ "x" (by decide) rfl,
   C7_amended_skip_if_equal.2.1 ⟨true⟩ true rfl,
   C7_amended_skip_if_equal.2.2 selApple "apple" _ rfl (by decide)⟩

-- ── C10 ─────────────────────────────────────────────────────────────────

/-- C10 (confirmed): `setText` returns true only when the control's value
equals the target after the call — an empty value fails immediately, an
already-equal value succeeds immediately without events, and otherwise the
boolean result is exactly the post-injection equality check against whatever
value the page's reaction left in the control. -/
theorem C10_setText_postcondition :
    ∀ (react : String → String → String) (el : TextEl) (v : String),
      ((setText react el v).2.2 = true → (setText react el v).1.value = v) ∧
      (setText react el "" = (el, [], false)) ∧
      (v ≠ "" → el.value = v → setText react el v = (el, [], true)) ∧
      (v ≠ "" → el.value ≠ v →
        setText react el v =
          (⟨react el.value v⟩, [.focus, .click, .input, .change, .blur],
            react el.value v == v)) := by
  intro react el v
  refine ⟨?_, by simp [setText], fun hv he => by simp [setText, hv, he],
    fun hv hne => by simp [setText, hv, hne]⟩
  intro htrue
  by_cases hv : v = ""
  · subst hv; simp [setText] at htrue
  · by_cases he : el.value = v
    · simp [setText, hv, he]
    · simp [setText, hv, he] at htrue ⊢
      exact htrue

/-- Witness for C10: a controlled component that reverts the write makes
`setText` report failure, an equal value succeeds with no events, and the
empty value fails. -/
theorem C10_setText_postcondition_witness :
    setText (fun old _ => old) ⟨"a"⟩ "" = (⟨"a"⟩, [], false) ∧
    setText (fun old _ => old) ⟨"b"⟩ "b" = (⟨"b"⟩, [], true) ∧
    setText (fun old _ => old) ⟨"a"⟩ "b" =
      (⟨"a"⟩, [.focus, .click, .input, .change, .blur], false) :=
  ⟨(C10_setText_postcondition (fun old _ => old) ⟨"a"⟩ "").2.1,
   (C10_setText_postcondition (fun old _ => old) ⟨"b"⟩ "b").2.2.1
     (by decide) rfl,
   by
    have h := (C10_setText_postcondition (fun old _ => old) ⟨"a"⟩ "b").2.2.2
      (by decide) (by decide)
    simpa using h⟩

-- ── C3 ──────────────────────────────────────────────────────────────────

/-- C3 counterexample: a clickable submit-text candidate without finality
wording does yield the submit classification. A lone visible "Apply" button
matches SUBMIT_TEXTS, carries none of the finality words, and — because no
next/continue control is clickable — `_classifyNextAction` falls through to
its final branch and returns submit. -/
theorem C3_fallback_counterexample :
    classifyNextAction [applyOnlyBtn] = .submit ∧
    impliesFinality applyOnlyBtn = false ∧
    findByText [] [applyOnlyBtn] SUBMIT_TEXTS = some applyOnlyBtn ∧
    isClickable applyOnlyBtn = true := by decide

/-- C3 (corrected): classification returns submit exactly when a clickable
submit-text candidate exists and either its text/label implies finality or no
clickable next/continue control is present — the finality guard is bypassed
by the fallback branch when the next-button search fails. -/
theorem C3_amended_submit_iff :
    ∀ bs : List Button,
      classifyNextAction bs = .submit ↔
        ∃ sb, findByText [] bs SUBMIT_TEXTS = some sb ∧
          isClickable sb = true ∧
          (impliesFinality sb = true ∨
            (findByText [] bs NEXT_TEXTS).any isClickable = false) := by
  intro bs
  cases hs : findByText [] bs SUBMIT_TEXTS with
  | none =>
    by_cases hn : (findByText [] bs NEXT_TEXTS).any isClickable <;>
      simp [classifyNextAction, hs, hn]
  | some sb =>
    by_cases hc : isClickable sb <;>
      by_cases hf : impliesFinality sb <;>
      by_cases hn : (findByText [] bs NEXT_TEXTS).any isClickable <;>
      simp [classifyNextAction, hs, hc, hf, hn]

/-- Witness for C3: the characterisation applied to the lone "Apply" button
yields its clickable submit candidate via the fallback disjunct. -/
theorem C3_amended_submit_iff_witness :
    ∃ sb, findByText [] [applyOnlyBtn] SUBMIT_TEXTS = some sb ∧
      isClickable sb = true ∧
      (impliesFinality sb = true ∨
        (findByText [] [applyOnlyBtn] NEXT_TEXTS).any isClickable = false) :=
  (C3_amended_submit_iff [applyOnlyBtn]).mp (by decide)

-- ── C8 ──────────────────────────────────────────────────────────────────

/-- C8 (code bug): the run loop calls `adapter.fill` without awaiting it, so
classification is gated only by the 500 ms post-fill delay while a queued
custom-widget injection may still be polling for its options — here one
whose option nodes appear after 2000 ms, so its flush completes 1500 ms
after classification has already run; correspondingly every per-step filled
count the orchestrator reports reads 0 off the pending Promise. -/
theorem C8_flush_not_before_classify :
    reactSelectPollTime present2000 = 2000 ∧
    POST_FILL_DELAY_MS = 500 ∧
    POST_FILL_DELAY_MS < reactSelectPollTime present2000 ∧
    ((run envSubmit).statuses.filter
        (fun s => s.kind == StatusKind.stepReport)).all
      (fun s => s.reportedFilled == 0) = true := by decide

-- ── Orchestrator loop lemmas ────────────────────────────────────────────

/-- A run's final step counter lies between the counter at entry and the
entry counter plus the remaining fuel. -/
theorem stepLoop_steps_le (env : RunEnv) :
    ∀ (fuel cur tot : Nat) (log : List (Nat × LogAction))
      (clicks : List Click) (sts : List StatusEv)
      (cls : List (Nat × NextAction)),
      cur ≤ (stepLoop env fuel cur tot log clicks sts cls).result.stepsCompleted ∧
      (stepLoop env fuel cur tot log clicks sts cls).result.stepsCompleted ≤
        cur + fuel := by
  intro fuel
  induction fuel with
  | zero => intro cur tot log clicks sts cls; simp [stepLoop]
  | succ fuel ih =>
    intro cur tot log clicks sts cls
    simp only [stepLoop]
    by_cases hab : env.abortBefore (cur + 1)
    · simp [hab]
    · simp only [hab, Bool.false_eq_true, if_false]
      by_cases had : (env.steps (cur + 1)).abortDuringDelay
      · simp [had]
      · simp only [had, Bool.false_eq_true, if_false]
        cases hact : classifyNextAction (env.steps (cur + 1)).buttons with
        | submit => simp [hact]
        | done => simp [hact]
        | next =>
          simp only [hact]
          cases hfc : findAndClick [] (env.steps (cur + 1)).buttons NEXT_TEXTS with
          | none => simp [hfc]
          | some b =>
            simp only [hfc, waitForStepTransition_eq_true, if_true]
            have := ih (cur + 1) (tot + 0 +
              (if (env.steps (cur + 1)).resumeUploaded = true then 1 else 0))
              (log ++ [(cur + 1, LogAction.stepFilled)])
              (clicks ++ [⟨cur + 1, ClickOrigin.nextNav, b⟩])
              (sts ++ [⟨StatusKind.fillingStep, cur + 1, false, false, false, 0⟩]
                ++ [⟨StatusKind.stepReport, cur + 1, false, false, false, 0⟩])
              (cls ++ [(cur + 1, NextAction.next)])
            omega

/-- A loop that ends awaiting submit confirmation has completed at least one
step beyond its entry counter (the submit break happens inside an iteration). -/
theorem stepLoop_submit_lb (env : RunEnv) :
    ∀ (fuel cur tot : Nat) (log : List (Nat × LogAction))
      (clicks : List Click) (sts : List StatusEv)
      (cls : List (Nat × NextAction)),
      (stepLoop env fuel cur tot log clicks sts cls).outcome = .awaitingSubmit →
      cur < (stepLoop env fuel cur tot log clicks sts cls).result.stepsCompleted := by
  intro fuel
  induction fuel with
  | zero => intro cur tot log clicks sts cls; simp [stepLoop]
  | succ fuel ih =>
    intro cur tot log clicks sts cls
    simp only [stepLoop]
    by_cases hab : env.abortBefore (cur + 1)
    · simp [hab]
    · simp only [hab, Bool.false_eq_true, if_false]
      by_cases had : (env.steps (cur + 1)).abortDuringDelay
      · simp [had]
      · simp only [had, Bool.false_eq_true, if_false]
        cases hact : classifyNextAction (env.steps (cur + 1)).buttons with
        | submit => simp [hact]
        | done => simp [hact]
        | next =>
          simp only [hact]
          cases hfc : findAndClick [] (env.steps (cur + 1)).buttons NEXT_TEXTS with
          | none => simp [hfc]
          | some b =>
            simp only [hfc, waitForStepTransition_eq_true, if_true]
            intro hout
            have := ih (cur + 1) (tot + 0 +
              (if (env.steps (cur + 1)).resumeUploaded = true then 1 else 0))
              (log ++ [(cur + 1, LogAction.stepFilled)])
              (clicks ++ [⟨cur + 1, ClickOrigin.nextNav, b⟩])
              (sts ++ [⟨StatusKind.fillingStep, cur + 1, false, false, false, 0⟩]
                ++ [⟨StatusKind.stepReport, cur + 1, false, false, false, 0⟩])
              (cls ++ [(cur + 1, NextAction.next)]) hout
            omega

/-- The validation-error and transition-timeout exits are unreachable: the
settle promise always fulfills, so `_waitForStepTransition` never reports
failure. -/
theorem stepLoop_no_validation (env : RunEnv) :
    ∀ (fuel cur tot : Nat) (log : List (Nat × LogAction))
      (clicks : List Click) (sts : List StatusEv)
      (cls : List (Nat × NextAction)),
      ((stepLoop env fuel cur tot log clicks sts cls).outcome ==
        Outcome.validationBlocked) = false ∧
      ((stepLoop env fuel cur tot log clicks sts cls).outcome ==
        Outcome.transitionTimeout) = false := by
  intro fuel
  induction fuel with
  | zero => intro cur tot log clicks sts cls; simp [stepLoop]
  | succ fuel ih =>
    intro cur tot log clicks sts cls
    simp only [stepLoop]
    by_cases hab : env.abortBefore (cur + 1)
    · simp [hab]
    · simp only [hab, Bool.false_eq_true, if_false]
      by_cases had : (env.steps (cur + 1)).abortDuringDelay
      · simp [had]
      · simp only [had, Bool.false_eq_true, if_false]
        cases hact : classifyNextAction (env.steps (cur + 1)).buttons with
        | submit => simp [hact]
        | done => simp [hact]
        | next =>
          simp only [hact]
          cases hfc : findAndClick [] (env.steps (cur + 1)).buttons NEXT_TEXTS with
          | none => simp [hfc]
          | some b =>
            simp only [hfc, waitForStepTransition_eq_true, if_true]
            exact ih (cur + 1) (tot + 0 +
              (if (env.steps (cur + 1)).resumeUploaded = true then 1 else 0))
              (log ++ [(cur + 1, LogAction.stepFilled)])
              (clicks ++ [⟨cur + 1, ClickOrigin.nextNav, b⟩])
              (sts ++ [⟨StatusKind.fillingStep, cur + 1, false, false, false, 0⟩]
                ++ [⟨StatusKind.stepReport, cur + 1, false, false, false, 0⟩])
              (cls ++ [(cur + 1, NextAction.next)])

/-- Every click the loop performs beyond those already recorded is a
next-navigation click taken in an iteration whose classification verdict was
`next`; and if the loop ends awaiting submit confirmation, that click's step
is strictly below the final step counter. -/
theorem stepLoop_clicks (env : RunEnv) :
    ∀ (fuel cur tot : Nat) (log : List (Nat × LogAction))
      (clicks : List Click) (sts : List StatusEv)
      (cls : List (Nat × NextAction)),
      ∀ c ∈ (stepLoop env fuel cur tot log clicks sts cls).clicks,
        c ∈ clicks ∨
          (c.origin = .nextNav ∧
           classifyNextAction (env.steps c.step).buttons = .next ∧
           ((stepLoop env fuel cur tot log clicks sts cls).outcome =
               .awaitingSubmit →
             c.step <
               (stepLoop env fuel cur tot log clicks sts cls).result.stepsCompleted)) := by
  intro fuel
  induction fuel with
  | zero =>
    intro cur tot log clicks sts cls c hc
    simp only [stepLoop] at hc
    exact Or.inl hc
  | succ fuel ih =>
    intro cur tot log clicks sts cls c hc
    simp only [stepLoop] at hc ⊢
    by_cases hab : env.abortBefore (cur + 1)
    · simp only [hab, if_true] at hc ⊢
      exact Or.inl hc
    · simp only [hab, Bool.false_eq_true, if_false] at hc ⊢
      by_cases had : (env.steps (cur + 1)).abortDuringDelay
      · simp only [had, if_true] at hc ⊢
        exact Or.inl hc
      · simp only [had, Bool.false_eq_true, if_false] at hc ⊢
        cases hact : classifyNextAction (env.steps (cur + 1)).buttons with
        | submit => simp only [hact] at hc ⊢; exact Or.inl hc
        | done => simp only [hact] at hc ⊢; exact Or.inl hc
        | next =>
          simp only [hact] at hc ⊢
          cases hfc : findAndClick [] (env.steps (cur + 1)).buttons NEXT_TEXTS with
          | none => simp only [hfc] at hc ⊢; exact Or.inl hc
          | some b =>
            simp only [hfc, waitForStepTransition_eq_true, if_true] at hc ⊢
            have hrec := ih (cur + 1) (tot + 0 +
              (if (env.steps (cur + 1)).resumeUploaded = true then 1 else 0))
              (log ++ [(cur + 1, LogAction.stepFilled)])
              (clicks ++ [⟨cur + 1, ClickOrigin.nextNav, b⟩])
              (sts ++ [⟨StatusKind.fillingStep, cur + 1, false, false, false, 0⟩]
                ++ [⟨StatusKind.stepReport, cur + 1, false, false, false, 0⟩])
              (cls ++ [(cur + 1, NextAction.next)]) c hc
            rcases hrec with hmem | hrest
            · rcases List.mem_append.mp hmem with hold | hnew
              · exact Or.inl hold
              · right
                rcases List.mem_singleton.mp hnew with rfl
                refine ⟨rfl, hact, fun hout => ?_⟩
                exact stepLoop_submit_lb env fuel (cur + 1) _ _ _ _ _ hout
            · exact Or.inr hrest

/-- A loop ending awaiting submit confirmation emitted a ready-to-submit
status flagged `awaitingSubmit` for its final step. -/
theorem stepLoop_awaiting_status (env : RunEnv) :
    ∀ (fuel cur tot : Nat) (log : List (Nat × LogAction))
      (clicks : List Click) (sts : List StatusEv)
      (cls : List (Nat × NextAction)),
      (stepLoop env fuel cur tot log clicks sts cls).outcome = .awaitingSubmit →
      ∃ s ∈ (stepLoop env fuel cur tot log clicks sts cls).statuses,
        s.kind = .readySubmit ∧ s.awaitingSubmitFlag = true ∧
        s.step = (stepLoop env fuel cur tot log clicks sts cls).result.stepsCompleted := by
  intro fuel
  induction fuel with
  | zero => intro cur tot log clicks sts cls; simp [stepLoop]
  | succ fuel ih =>
    intro cur tot log clicks sts cls
    simp only [stepLoop]
    by_cases hab : env.abortBefore (cur + 1)
    · simp [hab]
    · simp only [hab, Bool.false_eq_true, if_false]
      by_cases had : (env.steps (cur + 1)).abortDuringDelay
      · simp [had]
      · simp only [had, Bool.false_eq_true, if_false]
        cases hact : classifyNextAction (env.steps (cur + 1)).buttons with
        | submit =>
          intro _
          refine ⟨⟨StatusKind.readySubmit, cur + 1, false, true, false,
            tot + 0 + (if (env.steps (cur + 1)).resumeUploaded = true then 1 else 0)⟩,
            ?_, rfl, rfl, rfl⟩
          simp [hact]
        | done => simp [hact]
        | next =>
          simp only [hact]
          cases hfc : findAndClick [] (env.steps (cur + 1)).buttons NEXT_TEXTS with
          | none => simp [hfc]
          | some b =>
            simp only [hfc, waitForStepTransition_eq_true, if_true]
            exact ih (cur + 1) (tot + 0 +
              (if (env.steps (cur + 1)).resumeUploaded = true then 1 else 0))
              (log ++ [(cur + 1, LogAction.stepFilled)])
              (clicks ++ [⟨cur + 1, ClickOrigin.nextNav, b⟩])
              (sts ++ [⟨StatusKind.fillingStep, cur + 1, false, false, false, 0⟩]
                ++ [⟨StatusKind.stepReport, cur + 1, false, false, false, 0⟩])
              (cls ++ [(cur + 1, NextAction.next)])

/-- A loop exit caused by the abort flag — at the while guard or at the
mid-step check after the post-fill delay — returns `success = false`. -/
theorem stepLoop_abort_success (env : RunEnv) :
    ∀ (fuel cur tot : Nat) (log : List (Nat × LogAction))
      (clicks : List Click) (sts : List StatusEv)
      (cls : List (Nat × NextAction)),
      ((stepLoop env fuel cur tot log clicks sts cls).outcome = .abortedAtGuard ∨
        (stepLoop env fuel cur tot log clicks sts cls).outcome = .abortedMidStep) →
      (stepLoop env fuel cur tot log clicks sts cls).result.success = false := by
  intro fuel
  induction fuel with
  | zero => intro cur tot log clicks sts cls; simp [stepLoop]
  | succ fuel ih =>
    intro cur tot log clicks sts cls
    simp only [stepLoop]
    by_cases hab : env.abortBefore (cur + 1)
    · simp [hab]
    · simp only [hab, Bool.false_eq_true, if_false]
      by_cases had : (env.steps (cur + 1)).abortDuringDelay
      · simp [had]
      · simp only [had, Bool.false_eq_true, if_false]
        cases hact : classifyNextAction (env.steps (cur + 1)).buttons with
        | submit => simp [hact]
        | done => simp [hact]
        | next =>
          simp only [hact]
          cases hfc : findAndClick [] (env.steps (cur + 1)).buttons NEXT_TEXTS with
          | none => simp [hfc]
          | some b =>
            simp only [hfc, waitForStepTransition_eq_true, if_true]
            exact ih (cur + 1) (tot + 0 +
              (if (env.steps (cur + 1)).resumeUploaded = true then 1 else 0))
              (log ++ [(cur + 1, LogAction.stepFilled)])
              (clicks ++ [⟨cur + 1, ClickOrigin.nextNav, b⟩])
              (sts ++ [⟨StatusKind.fillingStep, cur + 1, false, false, false, 0⟩]
                ++ [⟨StatusKind.stepReport, cur + 1, false, false, false, 0⟩])
              (cls ++ [(cur + 1, NextAction.next)])

/-- A mid-step abort exit leaves the final step's environment flagged as
aborted-during-delay and records no classification for the final step: all
classification entries stay strictly below the final step counter. -/
theorem stepLoop_abort_mid (env : RunEnv) :
    ∀ (fuel cur tot : Nat) (log : List (Nat × LogAction))
      (clicks : List Click) (sts : List StatusEv)
      (cls : List (Nat × NextAction)),
      (∀ p ∈ cls, p.1 ≤ cur) →
      (stepLoop env fuel cur tot log clicks sts cls).outcome = .abortedMidStep →
      (env.steps
          (stepLoop env fuel cur tot log clicks sts cls).result.stepsCompleted).abortDuringDelay =
        true ∧
      ∀ p ∈ (stepLoop env fuel cur tot log clicks sts cls).classifies,
        p.1 < (stepLoop env fuel cur tot log clicks sts cls).result.stepsCompleted := by
  intro fuel
  induction fuel with
  | zero => intro cur tot log clicks sts cls _; simp [stepLoop]
  | succ fuel ih =>
    intro cur tot log clicks sts cls hcls
    simp only [stepLoop]
    by_cases hab : env.abortBefore (cur + 1)
    · simp [hab]
    · simp only [hab, Bool.false_eq_true, if_false]
      by_cases had : (env.steps (cur + 1)).abortDuringDelay
      · simp only [had, if_true]
        intro _
        refine ⟨trivial, ?_⟩
        intro p hp
        have := hcls p hp
        omega
      · simp only [had, Bool.false_eq_true, if_false]
        cases hact : classifyNextAction (env.steps (cur + 1)).buttons with
        | submit => simp [hact]
        | done => simp [hact]
        | next =>
          simp only [hact]
          cases hfc : findAndClick [] (env.steps (cur + 1)).buttons NEXT_TEXTS with
          | none => simp [hfc]
          | some b =>
            simp only [hfc, waitForStepTransition_eq_true, if_true]
            refine ih (cur + 1) (tot + 0 +
              (if (env.steps (cur + 1)).resumeUploaded = true then 1 else 0))
              (log ++ [(cur + 1, LogAction.stepFilled)])
              (clicks ++ [⟨cur + 1, ClickOrigin.nextNav, b⟩])
              (sts ++ [⟨StatusKind.fillingStep, cur + 1, false, false, false, 0⟩]
                ++ [⟨StatusKind.stepReport, cur + 1, false, false, false, 0⟩])
              (cls ++ [(cur + 1, NextAction.next)]) ?_
            intro p hp
            rcases List.mem_append.mp hp with hold | hnew
            · have := hcls p hold
              omega
            · rcases List.mem_singleton.mp hnew with rfl
              exact le_refl _

/-- The loop's total-filled accumulator grows by exactly the resume uploads
of the steps it executed (the per-step fill count always reads 0 off the
pending Promise). -/
theorem stepLoop_totalFilled (env : RunEnv) :
    ∀ (fuel cur tot : Nat) (log : List (Nat × LogAction))
      (clicks : List Click) (sts : List StatusEv)
      (cls : List (Nat × NextAction)),
      (stepLoop env fuel cur tot log clicks sts cls).result.totalFilled +
          uploadsUpTo env cur =
        tot + uploadsUpTo env
          (stepLoop env fuel cur tot log clicks sts cls).result.stepsCompleted := by
  intro fuel
  induction fuel with
  | zero => intro cur tot log clicks sts cls; simp [stepLoop]
  | succ fuel ih =>
    intro cur tot log clicks sts cls
    have hup : uploadsUpTo env (cur + 1) = uploadsUpTo env cur +
        (if (env.steps (cur + 1)).resumeUploaded = true then 1 else 0) := rfl
    simp only [stepLoop]
    by_cases hab : env.abortBefore (cur + 1)
    · simp [hab]
    · simp only [hab, Bool.false_eq_true, if_false]
      by_cases had : (env.steps (cur + 1)).abortDuringDelay
      · simp only [had, if_true]
        omega
      · simp only [had, Bool.false_eq_true, if_false]
        cases hact : classifyNextAction (env.steps (cur + 1)).buttons with
        | submit => simp only [hact]; omega
        | done => simp only [hact]; omega
        | next =>
          simp only [hact]
          cases hfc : findAndClick [] (env.steps (cur + 1)).buttons NEXT_TEXTS with
          | none => simp only [hfc]; omega
          | some b =>
            simp only [hfc, waitForStepTransition_eq_true, if_true]
            have hrec := ih (cur + 1) (tot + 0 +
              (if (env.steps (cur + 1)).resumeUploaded = true then 1 else 0))
              (log ++ [(cur + 1, LogAction.stepFilled)])
              (clicks ++ [⟨cur + 1, ClickOrigin.nextNav, b⟩])
              (sts ++ [⟨StatusKind.fillingStep, cur + 1, false, false, false, 0⟩]
                ++ [⟨StatusKind.stepReport, cur + 1, false, false, false, 0⟩])
              (cls ++ [(cur + 1, NextAction.next)])
            omega

/-- Each executed iteration contributes exactly one `fillingStep` status: the
filling count of the final statuses is the incoming count plus the number of
steps completed past the entry counter. -/
theorem stepLoop_fillingCount (env : RunEnv) :
    ∀ (fuel cur tot : Nat) (log : List (Nat × LogAction))
      (clicks : List Click) (sts : List StatusEv)
      (cls : List (Nat × NextAction)),
      fillingCount (stepLoop env fuel cur tot log clicks sts cls).statuses +
          cur =
        fillingCount sts +
          (stepLoop env fuel cur tot log clicks sts cls).result.stepsCompleted := by
  intro fuel
  induction fuel with
  | zero => intro cur tot log clicks sts cls; simp [stepLoop]
  | succ fuel ih =>
    intro cur tot log clicks sts cls
    have hfc2 : ∀ (k : Nat) (rep : Nat),
        fillingCount (sts ++ [⟨StatusKind.fillingStep, k, false, false, false, 0⟩]
          ++ [⟨StatusKind.stepReport, k, false, false, false, rep⟩]) =
        fillingCount sts + 1 := by
      intro k rep
      simp [fillingCount, List.filter_append]
    simp only [stepLoop]
    by_cases hab : env.abortBefore (cur + 1)
    · simp [hab]
    · simp only [hab, Bool.false_eq_true, if_false]
      by_cases had : (env.steps (cur + 1)).abortDuringDelay
      · simp [had, fillingCount, List.filter_append]
        omega
      · simp only [had, Bool.false_eq_true, if_false]
        cases hact : classifyNextAction (env.steps (cur + 1)).buttons with
        | submit =>
          simp only [hact]
          have h1 : fillingCount ((sts ++
              [⟨StatusKind.fillingStep, cur + 1, false, false, false, 0⟩]
              ++ [⟨StatusKind.stepReport, cur + 1, false, false, false, 0⟩]) ++
              [⟨StatusKind.readySubmit, cur + 1, false, true, false,
                tot + 0 + (if (env.steps (cur + 1)).resumeUploaded = true then 1 else 0)⟩]) =
              fillingCount sts + 1 := by
            simp [fillingCount, List.filter_append]
          simp only [h1]
          omega
        | done =>
          simp only [hact]
          have h1 : fillingCount ((sts ++
              [⟨StatusKind.fillingStep, cur + 1, false, false, false, 0⟩]
              ++ [⟨StatusKind.stepReport, cur + 1, false, false, false, 0⟩]) ++
              [⟨StatusKind.allDone, cur + 1, false, false, false,
                tot + 0 + (if (env.steps (cur + 1)).resumeUploaded = true then 1 else 0)⟩]) =
              fillingCount sts + 1 := by
            simp [fillingCount, List.filter_append]
          simp only [h1]
          omega
        | next =>
          simp only [hact]
          cases hfc : findAndClick [] (env.steps (cur + 1)).buttons NEXT_TEXTS with
          | none =>
            simp only [hfc]
            have h1 : fillingCount ((sts ++
                [⟨StatusKind.fillingStep, cur + 1, false, false, false, 0⟩]
                ++ [⟨StatusKind.stepReport, cur + 1, false, false, false, 0⟩]) ++
                [⟨StatusKind.cantAdvance, cur + 1, true, false, false, 0⟩]) =
                fillingCount sts + 1 := by
              simp [fillingCount, List.filter_append]
            simp only [h1]
            omega
          | some b =>
            simp only [hfc, waitForStepTransition_eq_true, if_true]
            have hrec := ih (cur + 1) (tot + 0 +
              (if (env.steps (cur + 1)).resumeUploaded = true then 1 else 0))
              (log ++ [(cur + 1, LogAction.stepFilled)])
              (clicks ++ [⟨cur + 1, ClickOrigin.nextNav, b⟩])
              (sts ++ [⟨StatusKind.fillingStep, cur + 1, false, false, false, 0⟩]
                ++ [⟨StatusKind.stepReport, cur + 1, false, false, false, 0⟩])
              (cls ++ [(cur + 1, NextAction.next)])
            rw [hfc2 (cur + 1) 0] at hrec
            omega

/-- A run is the step loop started with full fuel, zero counters, and
accumulators holding at most the phase-1 apply click (step 0), no
classification entries, and no `fillingStep` statuses. -/
theorem run_as_stepLoop (env : RunEnv) :
    ∃ (log : List (Nat × LogAction)) (clicks : List Click)
      (sts : List StatusEv) (cls : List (Nat × NextAction)),
      run env = stepLoop env MAX_STEPS 0 0 log clicks sts cls ∧
      (∀ c ∈ clicks, c.origin = .applyPhase ∧ c.step = 0) ∧
      fillingCount sts = 0 ∧ cls = [] := by
  cases hfc : findAndClick [] env.applyButtons APPLY_TEXTS with
  | none =>
    refine ⟨[(0, .noApplyButton)], [],
      [⟨.seekingApply, 0, false, false, false, 0⟩], [], ?_, ?_, ?_, rfl⟩
    · simp [run, hfc]
    · simp
    · simp [fillingCount]
  | some b =>
    refine ⟨[(0, .applyClicked)], [⟨0, .applyPhase, b⟩],
      [⟨.seekingApply, 0, false, false, false, 0⟩] ++
        [⟨.openingForm, 0, false, false, false, 0⟩], [], ?_, ?_, ?_, rfl⟩
    · simp [run, hfc]
    · intro c hc
      rcases List.mem_singleton.mp hc with rfl
      exact ⟨rfl, rfl⟩
    · simp [fillingCount]

-- ── C1 ──────────────────────────────────────────────────────────────────

/-- C1 (confirmed): the engine never activates a submit-classified control.
Every click a run performs is either the phase-1 apply click or a
next-navigation click taken in an iteration classified `next`; and whenever
classification identifies a submit control, the run stops in that iteration,
reports the awaiting-submit status for it, and every click of the run
belongs to an earlier iteration. -/
theorem C1_submit_never_clicked :
    ∀ env : RunEnv,
      (∀ c ∈ (run env).clicks, c.origin = .applyPhase ∨
        (c.origin = .nextNav ∧
          classifyNextAction (env.steps c.step).buttons = .next)) ∧
      ((run env).outcome = .awaitingSubmit →
        (∃ s ∈ (run env).statuses, s.kind = .readySubmit ∧
          s.awaitingSubmitFlag = true ∧
          s.step = (run env).result.stepsCompleted) ∧
        ∀ c ∈ (run env).clicks,
          c.step < (run env).result.stepsCompleted) := by
  intro env
  obtain ⟨log, clicks, sts, cls, heq, hck, _, _⟩ := run_as_stepLoop env
  rw [heq]
  constructor
  · intro c hc
    rcases stepLoop_clicks env MAX_STEPS 0 0 log clicks sts cls c hc with
      hold | hnew
    · exact Or.inl (hck c hold).1
    · exact Or.inr ⟨hnew.1, hnew.2.1⟩
  · intro hout
    refine ⟨stepLoop_awaiting_status env MAX_STEPS 0 0 log clicks sts cls hout,
      ?_⟩
    intro c hc
    rcases stepLoop_clicks env MAX_STEPS 0 0 log clicks sts cls c hc with
      hold | hnew
    · have h0 := (hck c hold).2
      have hlb := stepLoop_submit_lb env MAX_STEPS 0 0 log clicks sts cls hout
      omega
    · exact hnew.2.2 hout

/-- Witness for C1: a run whose only step shows a "Submit application"
control ends awaiting submit confirmation, reports it, and performed no
click at or after that step. -/
theorem C1_submit_never_clicked_witness :
    (run envSubmit).outcome = .awaitingSubmit ∧
    (∃ s ∈ (run envSubmit).statuses, s.kind = .readySubmit ∧
      s.awaitingSubmitFlag = true ∧
      s.step = (run envSubmit).result.stepsCompleted) ∧
    ∀ c ∈ (run envSubmit).clicks,
      c.step < (run envSubmit).result.stepsCompleted :=
  ⟨by decide, (C1_submit_never_clicked envSubmit).2 (by decide)⟩

-- ── C2 ──────────────────────────────────────────────────────────────────

/-- C2 (confirmed): every run terminates with a step counter of at most
`MAX_STEPS` (15), and the loop executes at most `MAX_STEPS` iterations (one
`fillingStep` status is emitted per iteration). Termination itself is
intrinsic: the loop consumes one unit of its `MAX_STEPS`-sized fuel per
iteration. -/
theorem C2_loop_bounded :
    ∀ env : RunEnv,
      (run env).result.stepsCompleted ≤ MAX_STEPS ∧
      fillingCount (run env).statuses ≤ MAX_STEPS := by
  intro env
  obtain ⟨log, clicks, sts, cls, heq, _, hfc0, _⟩ := run_as_stepLoop env
  rw [heq]
  have h1 := stepLoop_steps_le env MAX_STEPS 0 0 log clicks sts cls
  have h2 := stepLoop_fillingCount env MAX_STEPS 0 0 log clicks sts cls
  omega

-- ── C4 ──────────────────────────────────────────────────────────────────

/-- C4 (code bug): the validation-error and transition-timeout failures are
unreachable for every run, because `waitForDomSettle` resolves (best effort)
even when the quiet window is never reached within the hard cap, so
`_waitForStepTransition` never reports failure. Concretely, a step whose
mutations never pause for 600 ms before the 12 s cap and whose container
shows a visible validation-error marker still advances: that run ends
`doneNoNav` with no validation-error status ever emitted. -/
theorem C4_settle_never_fails :
    (∀ env : RunEnv,
      ((run env).outcome == Outcome.validationBlocked) = false ∧
      ((run env).outcome == Outcome.transitionTimeout) = false) ∧
    waitForDomSettle POST_CLICK_SETTLE_MS STEP_TIMEOUT_MS denseMuts =
      (STEP_TIMEOUT_MS, .cappedOut) ∧
    (envNoSettle.steps 1).errorsVisible = true ∧
    (run envNoSettle).outcome = .doneNoNav ∧
    ((run envNoSettle).statuses.all fun s => !s.validationErrorsFlag) = true := by
  refine ⟨?_, by decide, by decide, by decide, by decide⟩
  intro env
  obtain ⟨log, clicks, sts, cls, heq, _, _, _⟩ := run_as_stepLoop env
  rw [heq]
  exact stepLoop_no_validation env MAX_STEPS 0 0 log clicks sts cls

-- ── C9 ──────────────────────────────────────────────────────────────────

/-- C9 counterexample: the abort flag is honored mid-step, not only between
steps, and the returned object is `{success, stepsCompleted, totalFilled,
log}` with a false `success` flag rather than the claimed
`{stepsCompleted, totalFilled, awaitingSubmit, aborted, log}` shape. In a
run aborted during the post-fill delay of step 1, the step-1 fill was
reported but the run stopped before step 1 was ever classified. -/
theorem C9_abort_mid_counterexample :
    (run envAbortMid).outcome = .abortedMidStep ∧
    (run envAbortMid).result =
      ⟨false, 1, 0, [(0, .noApplyButton), (1, .stepFilled)]⟩ ∧
    (run envAbortMid).classifies = [] ∧
    ((run envAbortMid).statuses.any
      fun s => s.kind == StatusKind.stepReport && s.step == 1) = true := by
  decide

/-- C9 (corrected): abort is cooperative but checked at two points — the
loop guard and, mid-step, right after the post-fill delay. Either abort exit
returns `success = false` (the aborted indicator the result actually
carries); a mid-step abort leaves the final step unclassified; and the
partial `totalFilled` count (resume uploads, given the un-awaited fill) is
preserved in the result for every run. -/
theorem C9_amended_abort_semantics :
    ∀ env : RunEnv,
      (((run env).outcome = .abortedAtGuard ∨
        (run env).outcome = .abortedMidStep) →
        (run env).result.success = false) ∧
      ((run env).outcome = .abortedMidStep →
        (env.steps (run env).result.stepsCompleted).abortDuringDelay = true ∧
        ∀ p ∈ (run env).classifies,
          p.1 < (run env).result.stepsCompleted) ∧
      (run env).result.totalFilled =
        uploadsUpTo env (run env).result.stepsCompleted := by
  intro env
  obtain ⟨log, clicks, sts, cls, heq, _, _, hcls0⟩ := run_as_stepLoop env
  rw [heq]
  refine ⟨stepLoop_abort_success env MAX_STEPS 0 0 log clicks sts cls, ?_, ?_⟩
  · intro hout
    refine stepLoop_abort_mid env MAX_STEPS 0 0 log clicks sts cls ?_ hout
    simp [hcls0]
  · have h := stepLoop_totalFilled env MAX_STEPS 0 0 log clicks sts cls
    have h0 : uploadsUpTo env 0 = 0 := rfl
    omega

/-- Witness for C9: the aborted-mid-delay run has a false success flag and
its final step is the one whose delay the abort interrupted. -/
theorem C9_amended_abort_semantics_witness :
    (run envAbortMid).result.success = false ∧
    (envAbortMid.steps
      (run envAbortMid).result.stepsCompleted).abortDuringDelay = true :=
  ⟨(C9_amended_abort_semantics envAbortMid).1 (Or.inr (by decide)),
   ((C9_amended_abort_semantics envAbortMid).2.1 (by decide)).1⟩

end LevelUpX
